import Mathlib

/-
  Verification development for the Errata diagnostic-annotation carrier
  (src/src/Errata.cc of the repository).

  The embedding is shallow: the shared Payload (class Errata::Data) is a
  record, the process heap of payloads is a function from payload ids to
  optional payloads inside a World record, and an Errata handle is an
  optional payload id (the _data pointer).  The global Sink_List and the
  temporal behaviour of the destruction protocol are modelled by a sink
  list and an event log inside the World: invoking a sink and destroying a
  payload append events, so ordering claims become claims about the log.

  Mutating operations return Except Err: Err.sharedWrite models the C++
  throw std::runtime_error("Shared write to Errata"), Err.nullDeref models
  a dereference of a null (or already destroyed) _data pointer, which in
  the C++ source is undefined behaviour.  The C++ code throws before any
  write to the payload, so the all-or-nothing Except semantics is faithful.
-/

namespace swoc

/-- Severity is an ordered enumeration; the source manipulates it through
max and through casts to int, so it is embedded as Nat.  The nine variants
are 0 = DIAG through 8 = EMERGENCY, matching the name table in the source. -/
abbrev Severity := Nat

/-- Modelled from the spec: the constant DEFAULT_SEVERITY is declared in the
missing header swoc/Errata.h.  The spec fixes it as "a fixed default
severity" and requires severity() of any noted sequence to equal the
maximum of the noted levels, so it is the bottom of the order: DIAG = 0. -/
def DEFAULT_SEVERITY : Severity := 0

/-- Modelled from the spec: the constant FAILURE_SEVERITY is declared in the
missing header swoc/Errata.h; it is the threshold dividing ok from failing.
The conventional value in this library is ERROR = 5. -/
def FAILURE_SEVERITY : Severity := 5

/-- One note: a severity level and a text slice.  Text owned by the arena is
embedded by value as a String. -/
structure Annotation where
  _level : Severity
  _text : String
deriving DecidableEq

/-- Errata::Data, the shared payload: the intrusive note list (head = most
recently prepended note), the aggregate severity _level, and the reference
count.  The arena itself has no observable state beyond the note texts it
owns, so it is not represented. -/
structure Data where
  _notes : List Annotation
  _level : Severity
  _ref_count : Int
deriving DecidableEq

/-- Modelled from the spec: Data::empty() is declared in the missing header
swoc/Errata.h; per the spec the release path tests notes.count() > 0, so
empty() holds exactly when the note list has no element. -/
def Data.empty (d : Data) : Bool := d._notes.isEmpty

/-- Observable events of the destruction protocol: a registered sink being
invoked with the (still intact) payload content, and a payload being
destroyed (the explicit destructor call tearing down the arena). -/
inductive Event where
  | sinkCall (sink : Nat) (notes : List Annotation) (level : Severity)
  | destroyData (pid : Nat)
deriving DecidableEq

/-- The process state: the heap of payloads (by payload id), the id the next
payload creation will use, the global Sink_List (sinks are identified by
Nat, in registration order), and the event log. -/
structure World where
  payloads : Nat → Option Data
  next : Nat
  sinks : List Nat
  events : List Event

/-- An Errata handle: the _data pointer, null or a payload id. -/
structure Errata where
  _data : Option Nat
deriving DecidableEq

/-- Failure modes of the mutating operations: the explicit throw on shared
write, and the undefined behaviour of dereferencing a null _data pointer. -/
inductive Err where
  | sharedWrite
  | nullDeref
deriving DecidableEq

/-- The initial process state: no payloads, no sinks, no events. -/
def World.empty : World :=
  { payloads := fun _ => none, next := 0, sinks := [], events := [] }

/-- Store an optional payload at a payload id. -/
def World.setPayload (w : World) (pid : Nat) (d : Option Data) : World :=
  { w with payloads := fun q => if q = pid then d else w.payloads q }

/-- Errata::data(): if _data is null, construct a fresh Data (empty note
list, default severity) inside a fresh arena and increment its reference
count from 0 to 1; return the (now surely present) payload id. -/
def Errata.dataOp (w : World) (e : Errata) : World × Errata × Nat :=
  match e._data with
  | some pid => (w, e, pid)
  | none =>
      (World.setPayload { w with next := w.next + 1 } w.next
          (some { _notes := [], _level := DEFAULT_SEVERITY, _ref_count := 1 }),
        { _data := some w.next }, w.next)

/-- Errata::writeable_data(): create the payload if absent (then it is
unique); if present and _ref_count > 1, throw "Shared write to Errata";
otherwise return it. -/
def Errata.writeable_data (w : World) (e : Errata) :
    Except Err (World × Errata × Nat) :=
  match e._data with
  | none => .ok (Errata.dataOp w e)
  | some pid =>
      match w.payloads pid with
      | none => .error .nullDeref
      | some d => if d._ref_count > 1 then .error .sharedWrite else .ok (w, e, pid)

/-- Errata::note(Severity, string_view): obtain writeable data, localize the
text into the arena, prepend the new annotation, and raise the aggregate
_level to max(_level, level). -/
def Errata.note (w : World) (e : Errata) (level : Severity) (text : String) :
    Except Err (World × Errata) :=
  match Errata.writeable_data w e with
  | .error err => .error err
  | .ok (w1, e1, pid) =>
      match w1.payloads pid with
      | none => .error .nullDeref
      | some d =>
          .ok (World.setPayload w1 pid
                (some { d with
                        _notes := { _level := level, _text := text } :: d._notes,
                        _level := max d._level level }),
              e1)

/-- Errata::note_localized(Severity, MemSpan): identical to note except the
text is already arena-owned, so the localize copy is skipped; the observable
result is the same annotation. -/
def Errata.note_localized (w : World) (e : Errata) (level : Severity)
    (span : String) : Except Err (World × Errata) :=
  match Errata.writeable_data w e with
  | .error err => .error err
  | .ok (w1, e1, pid) =>
      match w1.payloads pid with
      | none => .error .nullDeref
      | some d =>
          .ok (World.setPayload w1 pid
                (some { d with
                        _notes := { _level := level, _text := span } :: d._notes,
                        _level := max d._level level }),
              e1)

/-- Errata::alloc(size_t): obtain writeable data and allocate n bytes from
the arena; the allocation itself has no observable state in the model. -/
def Errata.alloc (w : World) (e : Errata) (n : Nat) :
    Except Err (World × Errata) :=
  match Errata.writeable_data w e with
  | .error err => .error err
  | .ok (w1, e1, _) =>
      let _ := n
      .ok (w1, e1)

/-- The range begin()..end() of an Errata: the note list of the payload, or
the empty range when _data is null. -/
def Errata.notesOf (w : World) (e : Errata) : List Annotation :=
  match e._data with
  | none => []
  | some pid =>
      match w.payloads pid with
      | none => []
      | some d => d._notes

/-- The loop body of Errata::note(self_type const &): call note(m._level,
m._text) for each annotation of the snapshot, left to right. -/
def Errata.noteAll : World → Errata → List Annotation → Except Err (World × Errata)
  | w, e, [] => .ok (w, e)
  | w, e, m :: rest =>
      match Errata.note w e m._level m._text with
      | .error err => .error err
      | .ok (w1, e1) => Errata.noteAll w1 e1 rest

/-- Errata::note(self_type const &that) — merge: iterate the note list of
that newest-first (prepends to this do not affect the traversal of that,
also when that is this), calling this->note(m._level, m._text) on each. -/
def Errata.note_merge (w : World) (e : Errata) (that : Errata) :
    Except Err (World × Errata) :=
  Errata.noteAll w e (Errata.notesOf w that)

/-- Errata::count(): _data ? _data->_notes.count() : 0. -/
def Errata.count (w : World) (e : Errata) : Nat :=
  match e._data with
  | none => 0
  | some pid =>
      match w.payloads pid with
      | none => 0
      | some d => d._notes.length

/-- Errata::is_ok(): no payload, or no notes, or aggregate level below
FAILURE_SEVERITY. -/
def Errata.is_ok (w : World) (e : Errata) : Bool :=
  match e._data with
  | none => true
  | some pid =>
      match w.payloads pid with
      | none => true
      | some d => (d._notes.length == 0) || (decide (d._level < FAILURE_SEVERITY))

/-- Errata::severity(): aggregate level if a payload exists, else
DEFAULT_SEVERITY. -/
def Errata.severity (w : World) (e : Errata) : Severity :=
  match e._data with
  | none => DEFAULT_SEVERITY
  | some pid =>
      match w.payloads pid with
      | none => DEFAULT_SEVERITY
      | some d => d._level

/-- Errata::release(): if _data is non-null, decrement the reference count;
on reaching 0, first invoke every sink of Sink_List in order with the still
intact payload if the note list is non-empty, then run the Data destructor;
in every case null out _data. -/
def Errata.release (w : World) (e : Errata) : World × Errata :=
  match e._data with
  | none => (w, e)
  | some pid =>
      match w.payloads pid with
      | none => (w, { _data := none })
      | some d =>
          if d._ref_count - 1 = 0 then
            ({ World.setPayload w pid none with
                events := w.events ++
                  (if d.empty then []
                   else w.sinks.map fun s => Event.sinkCall s d._notes d._level) ++
                  [Event.destroyData pid] },
              { _data := none })
          else
            (World.setPayload w pid (some { d with _ref_count := d._ref_count - 1 }),
              { _data := none })

/-- Errata::clear(): _data->_notes.clear() — an unchecked dereference of
_data, so a handle without a payload hits undefined behaviour — followed by
this->release().  The aggregate _level is not reset. -/
def Errata.clear (w : World) (e : Errata) : Except Err (World × Errata) :=
  match e._data with
  | none => .error .nullDeref
  | some pid =>
      match w.payloads pid with
      | none => .error .nullDeref
      | some d =>
          .ok (Errata.release (World.setPayload w pid (some { d with _notes := [] }))
                { _data := some pid })

/-- Errata::register_sink(Sink::Handle const &): append to the global
Sink_List. -/
def Errata.register_sink (w : World) (s : Nat) : World :=
  { w with sinks := w.sinks ++ [s] }

/-- Modelled from the spec: the copy constructor of Errata is declared in
the missing header swoc/Errata.h; per the spec, copying an Errata value
shares the payload and increments its reference count. -/
def Errata.copy (w : World) (e : Errata) : World × Errata :=
  match e._data with
  | none => (w, { _data := none })
  | some pid =>
      match w.payloads pid with
      | none => (w, { _data := some pid })
      | some d =>
          (World.setPayload w pid (some { d with _ref_count := d._ref_count + 1 }),
            { _data := some pid })

/-- The loop of Errata::write(std::ostream &): each note emits
lead ++ " [" ++ the level cast to int ++ "]: " ++ text ++ endl, and lead
becomes two spaces once it was empty. -/
def write_go (lead : String) : List Annotation → String
  | [] => ""
  | m :: rest =>
      lead ++ " [" ++ toString m._level ++ "]: " ++ m._text ++ "\n" ++
        write_go (if lead.length = 0 then "  " else lead) rest

/-- Errata::write(std::ostream &): render every note, newest first, starting
with an empty lead. -/
def Errata.write (w : World) (e : Errata) : String :=
  write_go "" (Errata.notesOf w e)

/-- The fixed severity name table of bwformat(BufferWriter &, Spec const &,
Errata::Severity). -/
def severity_names : List String :=
  ["DIAG", "DEBUG", "INFO", "NOTE", "WARNING", "ERROR", "FATAL", "ALERT", "EMERGENCY"]

/-- bwformat on a Severity: name[static_cast<int>(level)].  The C++ array
access has no bounds check; a level outside the table reads past its end,
which is undefined behaviour and surfaces here as none. -/
def bwformat_severity (level : Severity) : Option String :=
  severity_names.get? level

/-- The loop of bwformat(BufferWriter &, Spec const &, Errata const &): each
note emits lead ++ "[" ++ severity name ++ "] " ++ text ++ "\n", and lead
becomes two spaces once it was empty; none when any severity name lookup is
out of bounds. -/
def bwformat_go (lead : String) : List Annotation → Option String
  | [] => some ""
  | m :: rest =>
      match bwformat_severity m._level with
      | none => none
      | some nm =>
          match bwformat_go (if lead.length = 0 then "  " else lead) rest with
          | none => none
          | some tl => some (lead ++ "[" ++ nm ++ "] " ++ m._text ++ "\n" ++ tl)

/-- bwformat on an Errata: render every note, newest first, starting with an
empty lead. -/
def bwformat_errata (w : World) (e : Errata) : Option String :=
  bwformat_go "" (Errata.notesOf w e)

/-- A sequence of direct note(level, text) calls performed left to right,
stopping at the first failure. -/
def Errata.noteSeq : World → Errata → List (Severity × String) → Except Err (World × Errata)
  | w, e, [] => .ok (w, e)
  | w, e, c :: rest =>
      match Errata.note w e c.1 c.2 with
      | .error err => .error err
      | .ok (w1, e1) => Errata.noteSeq w1 e1 rest

/-- Extract the successful result of a mutating step; used only to chain
concrete traces whose steps are separately proved to succeed. -/
def stepOk (r : Except Err (World × Errata)) : World × Errata :=
  match r with
  | .error _ => (World.empty, { _data := none })
  | .ok p => p

/-- The handle exclusively owns its payload: either no payload yet (the
first mutation creates a unique one) or a payload with reference count 1. -/
def Exclusive (w : World) (e : Errata) : Prop :=
  e._data = none ∨
    ∃ pid d, e._data = some pid ∧ w.payloads pid = some d ∧ d._ref_count = 1

/-- The handle is initially empty and exclusively owned: no payload yet, or
a payload still in its creation state (no notes, default severity,
reference count 1). -/
def InitiallyEmpty (w : World) (e : Errata) : Prop :=
  e._data = none ∨
    ∃ pid, e._data = some pid ∧
      w.payloads pid = some { _notes := [], _level := DEFAULT_SEVERITY, _ref_count := 1 }

/-- The per-payload aggregation invariant that actually holds of the code:
the aggregate level bounds the level of every note from above. -/
def DataInv (d : Data) : Prop :=
  ∀ a ∈ d._notes, a._level ≤ d._level

/-- Every live payload of the world satisfies DataInv. -/
def WorldInv (w : World) : Prop :=
  ∀ pid d, w.payloads pid = some d → DataInv d

/-- Worlds reachable from the initial state by any sequence of the public
operations, performed through arbitrary handles (a superset of the worlds
reachable through validly tracked handles, so an invariant proved for ReachW
holds for every payload any real operation sequence can produce). -/
inductive ReachW : World → Prop where
  | init : ReachW World.empty
  | regSink (s : Nat) {w : World} : ReachW w → ReachW (Errata.register_sink w s)
  | opNote {w w1 : World} {e e1 : Errata} (l : Severity) (t : String) :
      ReachW w → Errata.note w e l t = .ok (w1, e1) → ReachW w1
  | opNoteLocalized {w w1 : World} {e e1 : Errata} (l : Severity) (sp : String) :
      ReachW w → Errata.note_localized w e l sp = .ok (w1, e1) → ReachW w1
  | opAlloc {w w1 : World} {e e1 : Errata} (n : Nat) :
      ReachW w → Errata.alloc w e n = .ok (w1, e1) → ReachW w1
  | opMerge {w w1 : World} {e that e1 : Errata} :
      ReachW w → Errata.note_merge w e that = .ok (w1, e1) → ReachW w1
  | opClear {w w1 : World} {e e1 : Errata} :
      ReachW w → Errata.clear w e = .ok (w1, e1) → ReachW w1
  | opCopy {w w1 : World} {e e1 : Errata} :
      ReachW w → Errata.copy w e = (w1, e1) → ReachW w1
  | opRelease {w w1 : World} {e e1 : Errata} :
      ReachW w → Errata.release w e = (w1, e1) → ReachW w1

/-- Concatenation of a list of strings (head first). -/
def strJoin : List String → String
  | [] => ""
  | s :: rest => s ++ strJoin rest

/-- One line of Errata::write without its indent: a space, the level as a
decimal int, the text. -/
def write_line (m : Annotation) : String :=
  " [" ++ toString m._level ++ "]: " ++ m._text ++ "\n"

/-- One line of the formatted render without its indent: the severity name
in brackets, a space (no colon), the text. -/
def bw_line (m : Annotation) : String :=
  "[" ++ severity_names.getD m._level "" ++ "] " ++ m._text ++ "\n"

/-- The line format asserted by the claim, stated from the words of the
spec: each note renders as indent, then the severity name in brackets, then
a colon and a space, then the text and a newline; the first line has no
indent and every later line is indented by two spaces. -/
def claimed_render_go (lead : String) : List Annotation → Option String
  | [] => some ""
  | m :: rest =>
      match bwformat_severity m._level, claimed_render_go "  " rest with
      | some nm, some tl => some (lead ++ "[" ++ nm ++ "]: " ++ m._text ++ "\n" ++ tl)
      | _, _ => none

/-- The full claimed render of an Errata, per the words of the spec. -/
def claimed_render (ns : List Annotation) : Option String :=
  claimed_render_go "" ns

/-- A world whose sole payload (one ERROR note) is shared by two handles. -/
def sharedWorld : World :=
  { payloads := fun q =>
      if q = 0 then
        some { _notes := [{ _level := 5, _text := "x" }], _level := 5, _ref_count := 2 }
      else none,
    next := 1, sinks := [], events := [] }

/-- A world whose sole payload (one ERROR note) has a single owner, with two
registered sinks. -/
def soleWorld : World :=
  { payloads := fun q =>
      if q = 0 then
        some { _notes := [{ _level := 5, _text := "x" }], _level := 5, _ref_count := 1 }
      else none,
    next := 1, sinks := [7, 8], events := [] }

/-- A world whose sole payload carries a failure-level note with a single
owner, and one registered sink. -/
def clearWorld : World :=
  { payloads := fun q =>
      if q = 0 then
        some { _notes := [{ _level := 5, _text := "x" }], _level := 5, _ref_count := 1 }
      else none,
    next := 1, sinks := [7], events := [] }

/-- A world with two exclusively owned payloads: payload 0 (the merge
target) holds one note, payload 1 (the merge source) holds two. -/
def mergeW : World :=
  { payloads := fun q =>
      if q = 0 then
        some { _notes := [{ _level := 1, _text := "a" }], _level := 1, _ref_count := 1 }
      else if q = 1 then
        some { _notes := [{ _level := 2, _text := "b" }, { _level := 3, _text := "c" }],
               _level := 3, _ref_count := 1 }
      else none,
    next := 2, sinks := [], events := [] }

/-- The merge of payload 1 into payload 0 of mergeW. -/
def c7res : World × Errata :=
  stepOk (Errata.note_merge mergeW { _data := some 0 } { _data := some 1 })

/-- Trace step 1: note(5, "x") on a fresh Errata in the empty world. -/
def c4s1 : World × Errata :=
  stepOk (Errata.note World.empty { _data := none } 5 "x")

/-- Trace step 2: copy the handle, sharing the payload. -/
def c4s2 : World × Errata :=
  Errata.copy c4s1.1 c4s1.2

/-- Trace step 3: clear() through the first handle while the payload is
shared with the copy. -/
def c4s3 : World × Errata :=
  stepOk (Errata.clear c4s2.1 c4s1.2)

/-- Trace step 4: note(4, "y") through the surviving copy. -/
def c4s4 : World × Errata :=
  stepOk (Errata.note c4s3.1 c4s2.2 4 "y")

/-- A concrete run of two note calls starting from a fresh Errata. -/
def c3run : World × Errata :=
  stepOk (Errata.noteSeq World.empty { _data := none } [(5, "a"), (3, "b")])

/-- A world whose sole payload holds two notes (newest first: WARNING "w",
then ERROR "x"), for exercising the renders on more than one line. -/
def renderW : World :=
  { payloads := fun q =>
      if q = 0 then
        some { _notes := [{ _level := 4, _text := "w" }, { _level := 5, _text := "x" }],
               _level := 5, _ref_count := 1 }
      else none,
    next := 1, sinks := [], events := [] }

/- ----------------------------------------------------------------------- -/
/- Helper lemmas. -/

theorem setPayload_payloads (w : World) (pid q : Nat) (d : Option Data) :
    (World.setPayload w pid d).payloads q = if q = pid then d else w.payloads q := rfl

theorem note_ok_of_exclusive {w : World} {pid : Nat} {d : Data}
    (hp : w.payloads pid = some d) (hr : d._ref_count = 1) (l : Severity) (t : String) :
    Errata.note w { _data := some pid } l t =
      .ok (World.setPayload w pid
            (some { d with _notes := { _level := l, _text := t } :: d._notes,
                           _level := max d._level l }),
          { _data := some pid }) := by
  simp [Errata.note, Errata.writeable_data, hp, hr]

theorem note_none_ok (w : World) (l : Severity) (t : String) :
    Errata.note w { _data := none } l t =
      .ok (World.setPayload
              (World.setPayload { w with next := w.next + 1 } w.next
                (some { _notes := [], _level := DEFAULT_SEVERITY, _ref_count := 1 }))
              w.next
              (some { _notes := [{ _level := l, _text := t }],
                      _level := max DEFAULT_SEVERITY l, _ref_count := 1 }),
          { _data := some w.next }) := by
  simp [Errata.note, Errata.writeable_data, Errata.dataOp, World.setPayload]

theorem noteAll_ok {pid : Nat} :
    ∀ (ms : List Annotation) (w : World) (d : Data),
      w.payloads pid = some d → d._ref_count = 1 →
      ∃ w1, Errata.noteAll w { _data := some pid } ms = .ok (w1, { _data := some pid }) ∧
        w1.payloads pid = some { _notes := ms.reverse ++ d._notes,
                                 _level := ms.foldl (fun acc m => max acc m._level) d._level,
                                 _ref_count := 1 } ∧
        (∀ q, q ≠ pid → w1.payloads q = w.payloads q) ∧
        w1.events = w.events ∧ w1.sinks = w.sinks ∧ w1.next = w.next := by
  intro ms
  induction ms with
  | nil =>
      intro w d hp hr
      refine ⟨w, rfl, ?_, fun q _ => rfl, rfl, rfl, rfl⟩
      rw [hp]
      obtain ⟨ns, lv, rc⟩ := d
      simp_all
  | cons m rest ih =>
      intro w d hp hr
      have hstep := note_ok_of_exclusive hp hr m._level m._text
      have hp2 : (World.setPayload w pid
          (some { d with _notes := { _level := m._level, _text := m._text } :: d._notes,
                         _level := max d._level m._level })).payloads pid =
          some { d with _notes := { _level := m._level, _text := m._text } :: d._notes,
                        _level := max d._level m._level } := by
        simp [World.setPayload]
      obtain ⟨w1, h1, h2, hf, he, hs, hn⟩ := ih _ _ hp2 hr
      refine ⟨w1, ?_, ?_, ?_, he, hs, hn⟩
      · simp only [Errata.noteAll, hstep]
        exact h1
      · rw [h2]
        simp [List.reverse_cons, List.append_assoc]
      · intro q hq
        rw [hf q hq, setPayload_payloads, if_neg hq]

theorem noteSeq_eq_noteAll :
    ∀ (cs : List (Severity × String)) (w : World) (e : Errata),
      Errata.noteSeq w e cs =
        Errata.noteAll w e (cs.map fun c => { _level := c.1, _text := c.2 })
  | [], _, _ => rfl
  | c :: rest, w, e => by
      simp only [Errata.noteSeq, Errata.noteAll, List.map_cons]
      cases h : Errata.note w e c.1 c.2 with
      | error err => rfl
      | ok p => exact noteSeq_eq_noteAll rest p.1 p.2

theorem writeable_ok_of_exclusive {w : World} {e : Errata} (hx : Exclusive w e) :
    ∃ w1 pid d1, Errata.writeable_data w e = .ok (w1, { _data := some pid }, pid) ∧
      w1.payloads pid = some d1 ∧ d1._ref_count = 1 := by
  rcases hx with hnone | ⟨pid, d, hd, hp, hr⟩
  · have he : e = { _data := none } := by cases e; simp_all
    subst he
    refine ⟨_, w.next, { _notes := [], _level := DEFAULT_SEVERITY, _ref_count := 1 },
      rfl, ?_, rfl⟩
    simp [Errata.dataOp, World.setPayload]
  · have he : e = { _data := some pid } := by cases e; simp_all
    subst he
    exact ⟨w, pid, d, by simp [Errata.writeable_data, hp, hr], hp, hr⟩

theorem note_ok_of_writeable {w w1 : World} {e : Errata} {pid : Nat} {d1 : Data}
    (hwd : Errata.writeable_data w e = .ok (w1, { _data := some pid }, pid))
    (hp1 : w1.payloads pid = some d1) (l : Severity) (t : String) :
    Errata.note w e l t =
      .ok (World.setPayload w1 pid
            (some { d1 with _notes := { _level := l, _text := t } :: d1._notes,
                            _level := max d1._level l }),
          { _data := some pid }) := by
  simp [Errata.note, hwd, hp1]

theorem note_localized_ok_of_writeable {w w1 : World} {e : Errata} {pid : Nat} {d1 : Data}
    (hwd : Errata.writeable_data w e = .ok (w1, { _data := some pid }, pid))
    (hp1 : w1.payloads pid = some d1) (l : Severity) (sp : String) :
    Errata.note_localized w e l sp =
      .ok (World.setPayload w1 pid
            (some { d1 with _notes := { _level := l, _text := sp } :: d1._notes,
                            _level := max d1._level l }),
          { _data := some pid }) := by
  simp [Errata.note_localized, hwd, hp1]

theorem merge_ok_of_exclusive {w : World} (e that : Errata) (hx : Exclusive w e) :
    ∃ w1 e1, Errata.note_merge w e that = .ok (w1, e1) ∧
      Errata.notesOf w1 e1 = (Errata.notesOf w that).reverse ++ Errata.notesOf w e := by
  rcases hx with hnone | ⟨pid, d, hd, hp, hr⟩
  · have he : e = { _data := none } := by cases e; simp_all
    subst he
    cases hm : Errata.notesOf w that with
    | nil =>
        refine ⟨w, { _data := none }, ?_, ?_⟩
        · simp [Errata.note_merge, hm, Errata.noteAll]
        · simp [Errata.notesOf]
    | cons m rest =>
        have hp2 : (World.setPayload
            (World.setPayload { w with next := w.next + 1 } w.next
              (some { _notes := [], _level := DEFAULT_SEVERITY, _ref_count := 1 }))
            w.next
            (some { _notes := [{ _level := m._level, _text := m._text }],
                    _level := max DEFAULT_SEVERITY m._level, _ref_count := 1 })).payloads w.next =
            some { _notes := [{ _level := m._level, _text := m._text }],
                   _level := max DEFAULT_SEVERITY m._level, _ref_count := 1 } := by
          simp [World.setPayload]
        obtain ⟨w1, h1, h2, _, _, _, _⟩ := noteAll_ok rest _ _ hp2 rfl
        refine ⟨w1, { _data := some w.next }, ?_, ?_⟩
        · simp only [Errata.note_merge, hm, Errata.noteAll, note_none_ok]
          exact h1
        · simp [Errata.notesOf, h2]
  · have he : e = { _data := some pid } := by cases e; simp_all
    subst he
    obtain ⟨w1, h1, h2, _, _, _, _⟩ := noteAll_ok (Errata.notesOf w that) w d hp hr
    refine ⟨w1, { _data := some pid }, h1, ?_⟩
    simp [Errata.notesOf, h2, hp]

/- ----------------------------------------------------------------------- -/
/- Claim theorems. -/

/-- C7: for every exclusively owned Errata self and every Errata other, the
merge note(other) adds one annotation to self per annotation of other with
the same level and text, and because other is iterated newest-first while
self.note prepends, the merged annotations appear inside self in the
reverse of their relative order in other: the note list of self after the
merge is exactly the reverse of the note list of other, prepended in front
of the original notes of self. -/
theorem C7_merge_order {w : World} (e that : Errata) (hx : Exclusive w e) :
    ∃ w1 e1, Errata.note_merge w e that = .ok (w1, e1) ∧
      Errata.notesOf w1 e1 = (Errata.notesOf w that).reverse ++ Errata.notesOf w e :=
  merge_ok_of_exclusive e that hx

/-- C7 witness: merging the two-note payload 1 of mergeW into the
exclusively owned one-note payload 0 leaves the merged notes in reverse
relative order in front of the original note. -/
theorem C7_witness :
    Errata.notesOf c7res.1 c7res.2 =
      [{ _level := 3, _text := "c" }, { _level := 2, _text := "b" },
       { _level := 1, _text := "a" }] := by
  obtain ⟨w1, e1, hm, hn⟩ :=
    C7_merge_order (w := mergeW) { _data := some 0 } { _data := some 1 }
      (Or.inr ⟨0, _, rfl, rfl, rfl⟩)
  have hres : c7res = (w1, e1) := by
    unfold c7res stepOk
    rw [hm]
  rw [hres]
  rw [hn]
  rfl

/-- C3: starting from an initially empty, exclusively owned Errata, a
sequence of n note(level, text) calls always succeeds; afterwards count()
returns n and severity() returns the maximum of the n levels, or the
default severity when n is zero. -/
theorem C3_note_sequence {w : World} {e : Errata} (cs : List (Severity × String))
    (h : InitiallyEmpty w e) :
    ∃ w1 e1, Errata.noteSeq w e cs = .ok (w1, e1) ∧
      Errata.count w1 e1 = cs.length ∧
      Errata.severity w1 e1 =
        (match cs.map Prod.fst with
         | [] => DEFAULT_SEVERITY
         | l :: ls => ls.foldl max l) := by
  rcases h with hnone | ⟨pid, hd, hp⟩
  · have he : e = { _data := none } := by cases e; simp_all
    subst he
    cases cs with
    | nil => exact ⟨w, { _data := none }, rfl, rfl, rfl⟩
    | cons c rest =>
        rw [noteSeq_eq_noteAll]
        have hp2 : (World.setPayload
            (World.setPayload { w with next := w.next + 1 } w.next
              (some { _notes := [], _level := DEFAULT_SEVERITY, _ref_count := 1 }))
            w.next
            (some { _notes := [{ _level := c.1, _text := c.2 }],
                    _level := max DEFAULT_SEVERITY c.1, _ref_count := 1 })).payloads w.next =
            some { _notes := [{ _level := c.1, _text := c.2 }],
                   _level := max DEFAULT_SEVERITY c.1, _ref_count := 1 } := by
          simp [World.setPayload]
        obtain ⟨w1, h1, h2, _, _, _, _⟩ :=
          noteAll_ok (rest.map fun c => { _level := c.1, _text := c.2 }) _ _ hp2 rfl
        refine ⟨w1, { _data := some w.next }, ?_, ?_, ?_⟩
        · simp only [List.map_cons, Errata.noteAll, note_none_ok]
          exact h1
        · simp [Errata.count, h2]
        · simp only [Errata.severity, h2, List.map_cons]
          rw [List.foldl_map]
          simp [DEFAULT_SEVERITY, List.foldl_map]
  · have he : e = { _data := some pid } := by cases e; simp_all
    subst he
    rw [noteSeq_eq_noteAll]
    obtain ⟨w1, h1, h2, _, _, _, _⟩ :=
      noteAll_ok (cs.map fun c => { _level := c.1, _text := c.2 }) w _ hp rfl
    refine ⟨w1, { _data := some pid }, h1, ?_, ?_⟩
    · simp [Errata.count, h2]
    · simp only [Errata.severity, h2]
      rw [List.foldl_map]
      cases cs with
      | nil => rfl
      | cons c rest =>
          simp only [List.map_cons, List.foldl_cons]
          rw [List.foldl_map]
          simp [DEFAULT_SEVERITY]

/-- C3 witness: note(5, "a") then note(3, "b") on a fresh Errata gives
count 2 and severity 5 = max(5, 3). -/
theorem C3_witness :
    Errata.count c3run.1 c3run.2 = 2 ∧ Errata.severity c3run.1 c3run.2 = 5 := by
  obtain ⟨w1, e1, hm, hc, hs⟩ :=
    C3_note_sequence (w := World.empty) (e := { _data := none })
      [(5, "a"), (3, "b")] (Or.inl rfl)
  have hres : c3run = (w1, e1) := by
    unfold c3run stepOk
    rw [hm]
  rw [hres]
  exact ⟨hc, by rw [hs]; decide⟩

/-- C1 counterexample: the claim says every mutating operation on a shared
payload fails with the shared-write error, merge via note(other) included;
but when other holds no annotation the merge loop never runs, so it never
calls writeable_data and succeeds without raising, even though the payload
of self is shared (reference count 2). -/
theorem C1_cex_empty_merge :
    sharedWorld.payloads 0 =
      some { _notes := [{ _level := 5, _text := "x" }], _level := 5, _ref_count := 2 } ∧
    (1 : Int) < 2 ∧
    Errata.note_merge sharedWorld { _data := some 0 } { _data := none } =
      .ok (sharedWorld, { _data := some 0 }) := by
  exact ⟨rfl, by decide, rfl⟩

/-- C1 (amended): on an Errata whose payload is shared (ref_count > 1),
note(level, text), note_localized and alloc fail with the shared-write
error without modifying the payload (the throw happens in writeable_data,
before any write), and merge via note(other) does so whenever other holds
at least one annotation; merging an other with no annotation succeeds and
leaves the state untouched.  On an exclusively owned Errata (ref_count 1,
or no payload, which is lazily created) all these operations succeed. -/
theorem C1_shared_write_gating (w : World) (e : Errata) :
    (∀ pid d, e._data = some pid → w.payloads pid = some d → 1 < d._ref_count →
      (∀ l t, Errata.note w e l t = .error .sharedWrite) ∧
      (∀ l sp, Errata.note_localized w e l sp = .error .sharedWrite) ∧
      (∀ n, Errata.alloc w e n = .error .sharedWrite) ∧
      (∀ that, Errata.notesOf w that ≠ [] →
          Errata.note_merge w e that = .error .sharedWrite) ∧
      (∀ that, Errata.notesOf w that = [] →
          Errata.note_merge w e that = .ok (w, e))) ∧
    (Exclusive w e →
      (∀ l t, ∃ r, Errata.note w e l t = .ok r) ∧
      (∀ l sp, ∃ r, Errata.note_localized w e l sp = .ok r) ∧
      (∀ n, ∃ r, Errata.alloc w e n = .ok r) ∧
      (∀ that, ∃ r, Errata.note_merge w e that = .ok r)) := by
  constructor
  · intro pid d hd hp hr
    have he : e = { _data := some pid } := by cases e; simp_all
    subst he
    have hwd : Errata.writeable_data w { _data := some pid } = .error .sharedWrite := by
      simp [Errata.writeable_data, hp, hr]
    refine ⟨?_, ?_, ?_, ?_, ?_⟩
    · intro l t
      simp [Errata.note, hwd]
    · intro l sp
      simp [Errata.note_localized, hwd]
    · intro n
      simp [Errata.alloc, hwd]
    · intro that hne
      cases hms : Errata.notesOf w that with
      | nil => exact absurd hms hne
      | cons m rest =>
          simp [Errata.note_merge, hms, Errata.noteAll, Errata.note, hwd]
    · intro that hms
      simp [Errata.note_merge, hms, Errata.noteAll]
  · intro hx
    obtain ⟨w1, pid, d1, hwd, hp1, hr1⟩ := writeable_ok_of_exclusive hx
    refine ⟨?_, ?_, ?_, ?_⟩
    · intro l t
      exact ⟨_, note_ok_of_writeable hwd hp1 l t⟩
    · intro l sp
      exact ⟨_, note_localized_ok_of_writeable hwd hp1 l sp⟩
    · intro n
      exact ⟨(w1, { _data := some pid }), by simp [Errata.alloc, hwd]⟩
    · intro that
      obtain ⟨w2, e2, hm, _⟩ := merge_ok_of_exclusive e that hx
      exact ⟨(w2, e2), hm⟩

/-- C1 witness: on the concrete shared payload of sharedWorld, note fails
with the shared-write error while merging an annotation-free other
succeeds; on a fresh exclusively owned Errata, note succeeds. -/
theorem C1_witness :
    Errata.note sharedWorld { _data := some 0 } 3 "y" = .error Err.sharedWrite ∧
    Errata.note_merge sharedWorld { _data := some 0 } { _data := none } =
      .ok (sharedWorld, { _data := some 0 }) ∧
    Errata.note World.empty { _data := none } 3 "y" =
      .ok (stepOk (Errata.note World.empty { _data := none } 3 "y")) := by
  have h := C1_shared_write_gating sharedWorld { _data := some 0 }
  have hs := h.1 0 { _notes := [{ _level := 5, _text := "x" }], _level := 5, _ref_count := 2 }
      rfl rfl (by decide)
  have h2 := C1_shared_write_gating World.empty { _data := none }
  obtain ⟨r, hrr⟩ := (h2.2 (Or.inl rfl)).1 3 "y"
  refine ⟨hs.1 3 "y", hs.2.2.2.2 { _data := none } rfl, ?_⟩
  rw [hrr]
  rfl

/-- C2: when release drops the last reference (ref_count 1 becomes 0) of a
payload, the handle is detached and the payload destroyed; if the note list
is non-empty, every registered sink is invoked exactly once in registration
order with the still intact payload content, and the destruction event
follows all sink events; if the note list is empty, no sink is invoked. -/
theorem C2_release_protocol {w : World} {pid : Nat} {d : Data} {w1 : World} {e1 : Errata}
    (hp : w.payloads pid = some d) (hr : d._ref_count = 1)
    (hrel : Errata.release w { _data := some pid } = (w1, e1)) :
    e1._data = none ∧
    w1.payloads pid = none ∧
    (∀ q, q ≠ pid → w1.payloads q = w.payloads q) ∧
    (d._notes ≠ [] →
      w1.events = w.events ++ (w.sinks.map fun s => Event.sinkCall s d._notes d._level) ++
        [Event.destroyData pid]) ∧
    (d._notes = [] → w1.events = w.events ++ [Event.destroyData pid]) := by
  have hrw : Errata.release w { _data := some pid } =
      ({ World.setPayload w pid none with
          events := w.events ++
            (if d.empty then []
             else w.sinks.map fun s => Event.sinkCall s d._notes d._level) ++
            [Event.destroyData pid] },
        { _data := none }) := by
    simp [Errata.release, hp, hr]
  rw [hrw] at hrel
  rw [Prod.ext_iff] at hrel
  obtain ⟨hw, he⟩ := hrel
  subst hw
  subst he
  refine ⟨rfl, by simp [World.setPayload], ?_, ?_, ?_⟩
  · intro q hq
    simp [World.setPayload, hq]
  · intro hne
    cases hn : d._notes with
    | nil => exact absurd hn hne
    | cons a as => simp [Data.empty, hn]
  · intro hn
    simp [Data.empty, hn]

/-- C2 witness: releasing the sole reference to the one-note payload of
soleWorld invokes sink 7 then sink 8, each once, with the intact note and
level, destroys the payload afterwards and detaches the handle. -/
theorem C2_witness :
    (Errata.release soleWorld { _data := some 0 }).2._data = none ∧
    (Errata.release soleWorld { _data := some 0 }).1.payloads 0 = none ∧
    (Errata.release soleWorld { _data := some 0 }).1.events =
      [Event.sinkCall 7 [{ _level := 5, _text := "x" }] 5,
       Event.sinkCall 8 [{ _level := 5, _text := "x" }] 5,
       Event.destroyData 0] := by
  have h := C2_release_protocol
      (show soleWorld.payloads 0 =
          some { _notes := [{ _level := 5, _text := "x" }], _level := 5, _ref_count := 1 }
        from rfl) rfl rfl
  exact ⟨h.1, h.2.1, (h.2.2.2.1 (by decide)).trans (by decide)⟩

/-- C5 (code bug evaluation): clear() on an Errata that has no payload
dereferences the null _data pointer in _data->_notes.clear(), so it is not
total; in the model the null dereference surfaces as Err.nullDeref. -/
theorem C5_clear_null_payload :
    Errata.clear World.empty { _data := none } = .error Err.nullDeref := rfl

/-- C6 counterexample: for an Errata with no payload — included in the
universal quantification of the claim over every Errata — clear() does not
yield count 0 and ok; it fails on the null _data dereference. -/
theorem C6_cex_no_payload :
    ¬ ∃ p, Errata.clear (Errata.register_sink World.empty 7) { _data := none } = .ok p := by
  rintro ⟨p, h⟩
  exact Except.noConfusion h

/-- C6 (amended): for every Errata holding a payload, clear() succeeds and
yields count 0 and is_ok true, detaches the handle (so the later destructor
release is a no-op), and never triggers any sink invocation — even when the
aggregate severity of the payload was at or above FAILURE_SEVERITY — since
the note list is emptied before the release step: the event log gains at
most the payload destruction event. -/
theorem C6_clear_no_sink {w : World} {pid : Nat} {d : Data} {w1 : World} {e1 : Errata}
    (hp : w.payloads pid = some d)
    (hcl : Errata.clear w { _data := some pid } = .ok (w1, e1)) :
    Errata.count w1 e1 = 0 ∧
    Errata.is_ok w1 e1 = true ∧
    e1._data = none ∧
    Errata.release w1 e1 = (w1, e1) ∧
    w1.sinks = w.sinks ∧
    w1.events = w.events ++
      (if d._ref_count - 1 = 0 then [Event.destroyData pid] else []) := by
  by_cases hz : d._ref_count - 1 = 0
  · have hrw : Errata.clear w { _data := some pid } = .ok
        ({ World.setPayload (World.setPayload w pid (some { d with _notes := [] })) pid none
            with events := w.events ++ [] ++ [Event.destroyData pid] },
          { _data := none }) := by
      simp [Errata.clear, hp, Errata.release, World.setPayload, hz, Data.empty]
    rw [hrw] at hcl
    rw [Except.ok.injEq, Prod.ext_iff] at hcl
    obtain ⟨hw, he⟩ := hcl
    subst hw
    subst he
    exact ⟨rfl, rfl, rfl, rfl, rfl, by simp [hz]⟩
  · have hrw : Errata.clear w { _data := some pid } = .ok
        (World.setPayload (World.setPayload w pid (some { d with _notes := [] })) pid
            (some { _notes := [], _level := d._level, _ref_count := d._ref_count - 1 }),
          { _data := none }) := by
      simp [Errata.clear, hp, Errata.release, World.setPayload, hz]
    rw [hrw] at hcl
    rw [Except.ok.injEq, Prod.ext_iff] at hcl
    obtain ⟨hw, he⟩ := hcl
    subst hw
    subst he
    exact ⟨rfl, rfl, rfl, rfl, rfl, by simp [hz, World.setPayload]⟩

/-- C6 witness: clearing the sole-owner failure-level payload of clearWorld
(severity 5 = FAILURE_SEVERITY, one registered sink) yields count 0 and ok,
and only the destruction event is logged — no sink invocation. -/
theorem C6_witness :
    Errata.count (stepOk (Errata.clear clearWorld { _data := some 0 })).1
        (stepOk (Errata.clear clearWorld { _data := some 0 })).2 = 0 ∧
    Errata.is_ok (stepOk (Errata.clear clearWorld { _data := some 0 })).1
        (stepOk (Errata.clear clearWorld { _data := some 0 })).2 = true ∧
    (stepOk (Errata.clear clearWorld { _data := some 0 })).1.events =
      [Event.destroyData 0] := by
  have h := C6_clear_no_sink
      (show clearWorld.payloads 0 =
          some { _notes := [{ _level := 5, _text := "x" }], _level := 5, _ref_count := 1 }
        from rfl) rfl
  exact ⟨h.1, h.2.1, h.2.2.2.2.2.trans (by decide)⟩

/-- C9 (code bug evaluation): the severity name table has exactly the nine
fixed entries DIAG through EMERGENCY at levels 0 through 8, and the lookup
at the out-of-range level 9 finds no entry: the C++ code indexes the table
without any bounds check, so the access at level 9 reads past the end of
the array instead of being rejected as a programming error. -/
theorem C9_name_table :
    severity_names.length = 9 ∧
    bwformat_severity 9 = none ∧
    bwformat_severity 0 = some "DIAG" ∧
    bwformat_severity 1 = some "DEBUG" ∧
    bwformat_severity 2 = some "INFO" ∧
    bwformat_severity 3 = some "NOTE" ∧
    bwformat_severity 4 = some "WARNING" ∧
    bwformat_severity 5 = some "ERROR" ∧
    bwformat_severity 6 = some "FATAL" ∧
    bwformat_severity 7 = some "ALERT" ∧
    bwformat_severity 8 = some "EMERGENCY" := by
  decide

/-- C10: clear() on a handle whose payload is shared (ref_count > 1) does
not raise the shared-write error: it empties the note list of the payload
as observed by every other handle sharing it, keeps the old aggregate
level, decrements the reference count, detaches only the calling handle,
leaves every other payload untouched and invokes no sink. -/
theorem C10_clear_on_shared {w : World} {pid : Nat} {d : Data} {w1 : World} {e1 : Errata}
    (hp : w.payloads pid = some d) (hr : 1 < d._ref_count)
    (hcl : Errata.clear w { _data := some pid } = .ok (w1, e1)) :
    e1._data = none ∧
    w1.payloads pid =
      some { _notes := [], _level := d._level, _ref_count := d._ref_count - 1 } ∧
    (∀ q, q ≠ pid → w1.payloads q = w.payloads q) ∧
    w1.events = w.events ∧
    w1.sinks = w.sinks := by
  have hz : ¬ (d._ref_count - 1 = 0) := by omega
  have hrw : Errata.clear w { _data := some pid } = .ok
      (World.setPayload (World.setPayload w pid (some { d with _notes := [] })) pid
          (some { _notes := [], _level := d._level, _ref_count := d._ref_count - 1 }),
        { _data := none }) := by
    simp [Errata.clear, hp, Errata.release, World.setPayload, hz]
  rw [hrw] at hcl
  rw [Except.ok.injEq, Prod.ext_iff] at hcl
  obtain ⟨hw, he⟩ := hcl
  subst hw
  subst he
  refine ⟨rfl, by simp [World.setPayload], ?_, rfl, rfl⟩
  intro q hq
  simp [World.setPayload, hq]

/-- C10 witness: clearing the doubly-referenced payload of sharedWorld
succeeds, leaves the payload alive with no notes, old level 5 and reference
count 1 for the remaining sharer, and logs no event. -/
theorem C10_witness :
    (stepOk (Errata.clear sharedWorld { _data := some 0 })).1.payloads 0 =
      some { _notes := [], _level := 5, _ref_count := 1 } ∧
    (stepOk (Errata.clear sharedWorld { _data := some 0 })).1.events = [] ∧
    (stepOk (Errata.clear sharedWorld { _data := some 0 })).2._data = none := by
  have h := C10_clear_on_shared
      (show sharedWorld.payloads 0 =
          some { _notes := [{ _level := 5, _text := "x" }], _level := 5, _ref_count := 2 }
        from rfl) (by decide) rfl
  exact ⟨h.2.1.trans (by decide), h.2.2.2.1, h.1⟩

theorem setPayload_inv {w : World} {pid : Nat} {dOpt : Option Data}
    (hw : WorldInv w) (hd : ∀ d, dOpt = some d → DataInv d) :
    WorldInv (World.setPayload w pid dOpt) := by
  intro q d1 h
  rw [setPayload_payloads] at h
  by_cases hq : q = pid
  · rw [if_pos hq] at h
    exact hd d1 h
  · rw [if_neg hq] at h
    exact hw q d1 h

theorem DataInv_prepend {d : Data} (hd : DataInv d) (l : Severity) (t : String) :
    DataInv { d with _notes := { _level := l, _text := t } :: d._notes,
                     _level := max d._level l } := by
  intro a ha
  rcases List.mem_cons.mp ha with h1 | h2
  · subst h1
    exact le_max_right _ _
  · exact le_trans (hd a h2) (le_max_left _ _)

theorem note_inv {w w1 : World} {e e1 : Errata} {l : Severity} {t : String}
    (hw : WorldInv w) (h : Errata.note w e l t = .ok (w1, e1)) : WorldInv w1 := by
  cases he : e._data with
  | none =>
      have he2 : e = { _data := none } := by cases e; simp_all
      subst he2
      rw [note_none_ok] at h
      rw [Except.ok.injEq, Prod.ext_iff] at h
      obtain ⟨h1, _⟩ := h
      subst h1
      apply setPayload_inv
      · apply setPayload_inv hw
        intro d hd a ha
        cases hd
        cases ha
      · intro d hd a ha
        cases hd
        rcases List.mem_cons.mp ha with h1 | h2
        · subst h1
          exact le_max_right _ _
        · cases h2
  | some pid =>
      have he2 : e = { _data := some pid } := by cases e; simp_all
      subst he2
      cases hp : w.payloads pid with
      | none => simp [Errata.note, Errata.writeable_data, hp] at h
      | some d =>
          by_cases hr : d._ref_count > 1
          · simp [Errata.note, Errata.writeable_data, hp, hr] at h
          · have hrw : Errata.note w { _data := some pid } l t =
                .ok (World.setPayload w pid
                      (some { d with _notes := { _level := l, _text := t } :: d._notes,
                                     _level := max d._level l }),
                    { _data := some pid }) := by
              simp [Errata.note, Errata.writeable_data, hp, hr]
            rw [hrw] at h
            rw [Except.ok.injEq, Prod.ext_iff] at h
            obtain ⟨h1, _⟩ := h
            subst h1
            apply setPayload_inv hw
            intro d1 hd1
            cases hd1
            exact DataInv_prepend (hw pid d hp) l t

theorem note_localized_eq_note (w : World) (e : Errata) (l : Severity) (sp : String) :
    Errata.note_localized w e l sp = Errata.note w e l sp := by
  simp only [Errata.note_localized, Errata.note]

theorem noteAll_inv :
    ∀ (ms : List Annotation) (w w1 : World) (e e1 : Errata),
      WorldInv w → Errata.noteAll w e ms = .ok (w1, e1) → WorldInv w1 := by
  intro ms
  induction ms with
  | nil =>
      intro w w1 e e1 hw h
      rw [show Errata.noteAll w e [] = .ok (w, e) from rfl, Except.ok.injEq,
        Prod.ext_iff] at h
      obtain ⟨h1, _⟩ := h
      subst h1
      exact hw
  | cons m rest ih =>
      intro w w1 e e1 hw h
      rw [show Errata.noteAll w e (m :: rest) =
          (match Errata.note w e m._level m._text with
           | .error err => .error err
           | .ok (w2, e2) => Errata.noteAll w2 e2 rest) from rfl] at h
      cases hn : Errata.note w e m._level m._text with
      | error err => rw [hn] at h; cases h
      | ok p =>
          rw [hn] at h
          exact ih p.1 w1 p.2 e1 (note_inv hw (hn.trans (by rw [Prod.mk.eta]))) h

theorem alloc_inv {w w1 : World} {e e1 : Errata} {n : Nat}
    (hw : WorldInv w) (h : Errata.alloc w e n = .ok (w1, e1)) : WorldInv w1 := by
  cases he : e._data with
  | none =>
      have he2 : e = { _data := none } := by cases e; simp_all
      subst he2
      rw [show Errata.alloc w { _data := none } n =
          .ok ((Errata.dataOp w { _data := none }).1,
               (Errata.dataOp w { _data := none }).2.1) from rfl] at h
      rw [Except.ok.injEq, Prod.ext_iff] at h
      obtain ⟨h1, _⟩ := h
      subst h1
      apply setPayload_inv hw
      intro d hd a ha
      cases hd
      cases ha
  | some pid =>
      have he2 : e = { _data := some pid } := by cases e; simp_all
      subst he2
      cases hp : w.payloads pid with
      | none => simp [Errata.alloc, Errata.writeable_data, hp] at h
      | some d =>
          by_cases hr : d._ref_count > 1
          · simp [Errata.alloc, Errata.writeable_data, hp, hr] at h
          · have hrw : Errata.alloc w { _data := some pid } n =
                .ok (w, { _data := some pid }) := by
              simp [Errata.alloc, Errata.writeable_data, hp, hr]
            rw [hrw] at h
            rw [Except.ok.injEq, Prod.ext_iff] at h
            obtain ⟨h1, _⟩ := h
            subst h1
            exact hw

theorem release_inv {w w1 : World} {e e1 : Errata}
    (hw : WorldInv w) (h : Errata.release w e = (w1, e1)) : WorldInv w1 := by
  cases he : e._data with
  | none =>
      have he2 : e = { _data := none } := by cases e; simp_all
      subst he2
      rw [show Errata.release w { _data := none } = (w, { _data := none }) from rfl,
        Prod.ext_iff] at h
      obtain ⟨h1, _⟩ := h
      subst h1
      exact hw
  | some pid =>
      have he2 : e = { _data := some pid } := by cases e; simp_all
      subst he2
      cases hp : w.payloads pid with
      | none =>
          rw [show Errata.release w { _data := some pid } =
              (match w.payloads pid with
               | none => (w, { _data := none })
               | some d =>
                  if d._ref_count - 1 = 0 then
                    ({ World.setPayload w pid none with
                        events := w.events ++
                          (if d.empty then []
                           else w.sinks.map fun s => Event.sinkCall s d._notes d._level) ++
                          [Event.destroyData pid] },
                      { _data := none })
                  else
                    (World.setPayload w pid
                        (some { d with _ref_count := d._ref_count - 1 }),
                      { _data := none })) from rfl, hp, Prod.ext_iff] at h
          obtain ⟨h1, _⟩ := h
          subst h1
          exact hw
      | some d =>
          by_cases hz : d._ref_count - 1 = 0
          · have hrw : Errata.release w { _data := some pid } =
                ({ World.setPayload w pid none with
                    events := w.events ++
                      (if d.empty then []
                       else w.sinks.map fun s => Event.sinkCall s d._notes d._level) ++
                      [Event.destroyData pid] },
                  { _data := none }) := by
              simp [Errata.release, hp, hz]
            rw [hrw, Prod.ext_iff] at h
            obtain ⟨h1, _⟩ := h
            subst h1
            intro q d1 hq
            exact setPayload_inv hw (fun d2 hd2 => by cases hd2) q d1 hq
          · have hrw : Errata.release w { _data := some pid } =
                (World.setPayload w pid (some { d with _ref_count := d._ref_count - 1 }),
                  { _data := none }) := by
              simp [Errata.release, hp, hz]
            rw [hrw, Prod.ext_iff] at h
            obtain ⟨h1, _⟩ := h
            subst h1
            apply setPayload_inv hw
            intro d1 hd1 a ha
            cases hd1
            exact hw pid d hp a ha

theorem clear_inv {w w1 : World} {e e1 : Errata}
    (hw : WorldInv w) (h : Errata.clear w e = .ok (w1, e1)) : WorldInv w1 := by
  cases he : e._data with
  | none =>
      have he2 : e = { _data := none } := by cases e; simp_all
      subst he2
      cases h
  | some pid =>
      have he2 : e = { _data := some pid } := by cases e; simp_all
      subst he2
      cases hp : w.payloads pid with
      | none => simp [Errata.clear, hp] at h
      | some d =>
          have hrw : Errata.clear w { _data := some pid } = .ok
              (Errata.release (World.setPayload w pid (some { d with _notes := [] }))
                { _data := some pid }) := by
            simp [Errata.clear, hp]
          rw [hrw] at h
          have hmid : WorldInv (World.setPayload w pid (some { d with _notes := [] })) := by
            apply setPayload_inv hw
            intro d1 hd1 a ha
            cases hd1
            cases ha
          rw [Except.ok.injEq] at h
          exact release_inv hmid h

theorem copy_inv {w w1 : World} {e e1 : Errata}
    (hw : WorldInv w) (h : Errata.copy w e = (w1, e1)) : WorldInv w1 := by
  cases he : e._data with
  | none =>
      have he2 : e = { _data := none } := by cases e; simp_all
      subst he2
      rw [show Errata.copy w { _data := none } = (w, { _data := none }) from rfl,
        Prod.ext_iff] at h
      obtain ⟨h1, _⟩ := h
      subst h1
      exact hw
  | some pid =>
      have he2 : e = { _data := some pid } := by cases e; simp_all
      subst he2
      cases hp : w.payloads pid with
      | none =>
          have hrw : Errata.copy w { _data := some pid } = (w, { _data := some pid }) := by
            simp [Errata.copy, hp]
          rw [hrw, Prod.ext_iff] at h
          obtain ⟨h1, _⟩ := h
          subst h1
          exact hw
      | some d =>
          have hrw : Errata.copy w { _data := some pid } =
              (World.setPayload w pid (some { d with _ref_count := d._ref_count + 1 }),
                { _data := some pid }) := by
            simp [Errata.copy, hp]
          rw [hrw, Prod.ext_iff] at h
          obtain ⟨h1, _⟩ := h
          subst h1
          apply setPayload_inv hw
          intro d1 hd1 a ha
          cases hd1
          exact hw pid d hp a ha

/-- C4 counterexample: a payload reachable by public operations that
violates the claimed invariant.  After note(5, "x") on a fresh Errata, a
copy sharing the payload, and clear() through the first handle, the
surviving payload has an empty note list but aggregate level 5, not the
default severity; one further note(4, "y") through the surviving copy
leaves a non-empty note list whose maximum level is 4 while the aggregate
level stays 5. -/
theorem C4_cex_stale_level :
    c4s3.1.payloads 0 = some { _notes := [], _level := 5, _ref_count := 1 } ∧
    (5 : Severity) ≠ DEFAULT_SEVERITY ∧
    c4s4.1.payloads 0 =
      some { _notes := [{ _level := 4, _text := "y" }], _level := 5, _ref_count := 1 } ∧
    (5 : Severity) ≠ 4 ∧
    ReachW c4s4.1 := by
  refine ⟨by decide, by decide, by decide, by decide, ?_⟩
  have h1 : ReachW c4s1.1 :=
    ReachW.opNote (w := World.empty) (e := { _data := none }) 5 "x" ReachW.init rfl
  have h2 : ReachW c4s2.1 :=
    ReachW.opCopy (w := c4s1.1) (e := c4s1.2) h1 rfl
  have h3 : ReachW c4s3.1 :=
    ReachW.opClear (w := c4s2.1) (e := c4s1.2) h2 rfl
  exact ReachW.opNote (w := c4s3.1) (e := c4s2.2) 4 "y" h3 rfl

/-- C4 (amended): every payload reachable by any sequence of the public
operations satisfies the invariant that actually holds of the code: the
aggregate level is an upper bound of the levels of its notes (and is at
least the default severity, which is the bottom of the order).  The claimed
equalities — aggregate level equal to the maximum of the note levels when
non-empty and equal to the default severity when empty — fail on reachable
payloads, because clear() empties the note list of a shared payload without
resetting its aggregate level (see the counterexample). -/
theorem C4_level_upper_bound {w : World} (h : ReachW w) : WorldInv w := by
  induction h with
  | init =>
      intro pid d hd
      cases hd
  | regSink s _ ih => exact fun pid d hd => ih pid d hd
  | opNote l t _ hstep ih => exact note_inv ih hstep
  | opNoteLocalized l sp _ hstep ih =>
      exact note_inv ih ((note_localized_eq_note _ _ _ _).symm.trans hstep)
  | opAlloc n _ hstep ih => exact alloc_inv ih hstep
  | opMerge _ hstep ih => exact noteAll_inv _ _ _ _ _ ih hstep
  | opClear _ hstep ih => exact clear_inv ih hstep
  | opCopy _ hstep ih => exact copy_inv ih hstep
  | opRelease _ hstep ih => exact release_inv ih hstep

/-- C4 witness: the upper-bound invariant instantiated on the concretely
reached world of the counterexample trace. -/
theorem C4_witness : WorldInv c4s4.1 := by
  apply C4_level_upper_bound
  have h1 : ReachW c4s1.1 :=
    ReachW.opNote (w := World.empty) (e := { _data := none }) 5 "x" ReachW.init rfl
  have h2 : ReachW c4s2.1 :=
    ReachW.opCopy (w := c4s1.1) (e := c4s1.2) h1 rfl
  have h3 : ReachW c4s3.1 :=
    ReachW.opClear (w := c4s2.1) (e := c4s1.2) h2 rfl
  exact ReachW.opNote (w := c4s3.1) (e := c4s2.2) 4 "y" h3 rfl

theorem write_go_indent : ∀ ns : List Annotation,
    write_go "  " ns = strJoin (ns.map fun m => "  " ++ write_line m)
  | [] => rfl
  | m :: rest => by
      simp only [write_go, List.map_cons, strJoin, ite_self]
      rw [write_go_indent rest]
      simp only [write_line, String.append_assoc]

theorem write_render_structure (w : World) (e : Errata) :
    Errata.write w e =
      (match Errata.notesOf w e with
       | [] => ""
       | m :: rest =>
          write_line m ++ strJoin (rest.map fun m2 => "  " ++ write_line m2)) := by
  unfold Errata.write
  cases Errata.notesOf w e with
  | nil => rfl
  | cons m rest =>
      simp only [write_go]
      rw [show (if ("" : String).length = 0 then "  " else ("" : String)) = "  " from rfl]
      rw [write_go_indent rest]
      simp [write_line, String.append_assoc]

theorem bw_go_indent : ∀ ns : List Annotation,
    (∀ m ∈ ns, m._level < severity_names.length) →
    bwformat_go "  " ns = some (strJoin (ns.map fun m => "  " ++ bw_line m))
  | [], _ => rfl
  | m :: rest, h => by
      have hm : m._level < severity_names.length := h m (List.mem_cons_self m rest)
      have hrest := bw_go_indent rest (fun a ha => h a (List.mem_cons_of_mem m ha))
      have hnm : bwformat_severity m._level = some (severity_names.get ⟨m._level, hm⟩) :=
        List.get?_eq_get hm
      simp only [bwformat_go, ite_self, hnm, hrest, List.map_cons, strJoin]
      simp [bw_line, String.append_assoc, List.getElem?_eq_getElem hm]
      rw [← String.append_assoc "  " "["]
      rfl

theorem bw_render_structure (w : World) (e : Errata)
    (h : ∀ m ∈ Errata.notesOf w e, m._level < severity_names.length) :
    bwformat_errata w e =
      some (match Errata.notesOf w e with
            | [] => ""
            | m :: rest =>
                bw_line m ++ strJoin (rest.map fun m2 => "  " ++ bw_line m2)) := by
  unfold bwformat_errata
  cases hn : Errata.notesOf w e with
  | nil => rfl
  | cons m rest =>
      rw [hn] at h
      have hm : m._level < severity_names.length := h m (List.mem_cons_self m rest)
      have hrest := bw_go_indent rest (fun a ha => h a (List.mem_cons_of_mem m ha))
      have hnm : bwformat_severity m._level = some (severity_names.get ⟨m._level, hm⟩) :=
        List.get?_eq_get hm
      simp only [bwformat_go]
      rw [show (if ("" : String).length = 0 then "  " else ("" : String)) = "  " from rfl]
      rw [hnm, hrest]
      simp [bw_line, String.append_assoc, List.getElem?_eq_getElem hm]

/-- C8 counterexample: for the one-note payload of soleWorld (level 5 =
ERROR, text "x") the claim prescribes the single output line
"[ERROR]: x\n"; the stream render write() actually emits " [5]: x\n"
(numeric level and an extra space before the bracket) and the formatted
render emits "[ERROR] x\n" (a space instead of the colon), so neither
render produces the claimed line. -/
theorem C8_cex_line_format :
    claimed_render (Errata.notesOf soleWorld { _data := some 0 }) = some "[ERROR]: x\n" ∧
    Errata.write soleWorld { _data := some 0 } = " [5]: x\n" ∧
    bwformat_errata soleWorld { _data := some 0 } = some "[ERROR] x\n" ∧
    (" [5]: x\n" : String) ≠ "[ERROR]: x\n" ∧
    (some "[ERROR] x\n" : Option String) ≠ some "[ERROR]: x\n" := by
  refine ⟨by decide, by decide, by decide, by decide, by decide⟩

/-- C8 (amended): both renders emit exactly one line per note, in list
order (newest-first), with no indent on the first line and a two-space
indent on every later line, and an empty Errata renders to no output; but
the line format differs from the claim: write() emits
"<indent> [<level as int>]: <text>\n" while the formatted render emits
"<indent>[<severity-name>] <text>\n". -/
theorem C8_render_formats (w : World) (e : Errata) :
    Errata.write w e =
      (match Errata.notesOf w e with
       | [] => ""
       | m :: rest =>
          write_line m ++ strJoin (rest.map fun m2 => "  " ++ write_line m2)) ∧
    ((∀ m ∈ Errata.notesOf w e, m._level < severity_names.length) →
      bwformat_errata w e =
        some (match Errata.notesOf w e with
              | [] => ""
              | m :: rest =>
                  bw_line m ++ strJoin (rest.map fun m2 => "  " ++ bw_line m2))) :=
  ⟨write_render_structure w e, bw_render_structure w e⟩

/-- C8 witness: on the two-note payload of renderW, write() gives
" [4]: w\n   [5]: x\n" and the formatted render gives
"[WARNING] w\n  [ERROR] x\n" — one line per note, newest first, second
line indented by two spaces. -/
theorem C8_witness :
    Errata.write renderW { _data := some 0 } = " [4]: w\n   [5]: x\n" ∧
    bwformat_errata renderW { _data := some 0 } = some "[WARNING] w\n  [ERROR] x\n" := by
  have h := C8_render_formats renderW { _data := some 0 }
  exact ⟨h.1.trans (by decide), (h.2 (by decide)).trans (by decide)⟩

end swoc
